/-
Verification of the projectroles app (sodar_core): permission mixins,
project-list traversal, invite acceptance, remote-project batch update and
sync gating, ownership transfer, app settings and project starring.

Shallow embedding: Django ORM state is modelled as explicit lists of
records, views become pure functions from request data and database state
to (new state, response).  Parts of the repository that are referenced by
the views but whose modules are not present in the source tree
(models.py helpers, app_settings.py, project_tags.py) are modelled from
the specification and are marked `Modelled from the spec:` in their doc
comments.
-/
import Mathlib

namespace Sodar

/-! ## SODAR constants (values of SODAR_CONSTANTS; only distinctness and
    identity of the strings matter for the embedded logic) -/

def PROJECT_ROLE_OWNER : String := "project owner"

def PROJECT_ROLE_DELEGATE : String := "project delegate"

def SUBMIT_STATUS_OK : String := "OK"

def SITE_MODE_SOURCE : String := "SOURCE"

def SITE_MODE_TARGET : String := "TARGET"

def REMOTE_LEVEL_NONE : String := "NONE"

/-! ## C3: ProjectModifyPermissionMixin.has_permission

    From projectroles/views.py: `perm = super().has_permission();
    return False if project.is_remote() else perm`.  The result of the
    superclass permission check (a combination of Django rules) is taken
    as an opaque boolean input; the project is represented by its
    `is_remote()` flag. -/

structure ProjectR where
  is_remote : Bool

def projectModifyHasPermission (superPerm : Bool) (project : ProjectR) : Bool :=
  if project.is_remote then false else superPerm

/-! ## C4: RolePermissionMixin.has_permission

    From projectroles/views.py.  `superPerm` is the result of
    `ProjectModifyPermissionMixin.has_permission`; the targeted
    RoleAssignment lookup yields `some roleName` or `none`
    (RoleAssignment.DoesNotExist); the requesting user's Django rule
    permissions on the project are the two booleans. -/

structure PermUser where
  can_update_delegate : Bool
  can_update_members : Bool

def rolePermissionHasPermission (superPerm : Bool) (targetRole : Option String)
    (user : PermUser) : Bool :=
  if !superPerm then false
  else
    match targetRole with
    | some roleName =>
        if roleName == PROJECT_ROLE_OWNER then false
        else if roleName == PROJECT_ROLE_DELEGATE then user.can_update_delegate
        else user.can_update_members
    | none => false

/-! ### Theorems for C3 and C4 -/

/-- C3: views using ProjectModifyPermissionMixin deny modification of a
remote project for every user, superusers included: whatever the
superclass permission check returned, `has_permission()` is False when
`project.is_remote()` is true. -/
theorem remote_project_never_modifiable (superPerm : Bool) (project : ProjectR)
    (h : project.is_remote = true) :
    projectModifyHasPermission superPerm project = false := by
  simp [projectModifyHasPermission, h]

/-- Witness for C3 at a concrete input: a remote project with the
superclass check granting permission. -/
theorem remote_project_never_modifiable_witness :
    ProjectR.is_remote ⟨true⟩ = true ∧
      projectModifyHasPermission true ⟨true⟩ = false :=
  ⟨rfl, remote_project_never_modifiable true ⟨true⟩ rfl⟩

/-- C4: RolePermissionMixin denies every request targeting the owner
assignment; granting a request on a delegate assignment requires the
`update_project_delegate` permission; granting one on any other role
requires `update_project_members`; a missing assignment is denied. -/
theorem role_permission_cases (superPerm : Bool) (targetRole : Option String)
    (user : PermUser) :
    (targetRole = some PROJECT_ROLE_OWNER →
      rolePermissionHasPermission superPerm targetRole user = false) ∧
    (targetRole = some PROJECT_ROLE_DELEGATE →
      rolePermissionHasPermission superPerm targetRole user = true →
      user.can_update_delegate = true) ∧
    (∀ r, targetRole = some r → r ≠ PROJECT_ROLE_OWNER →
      r ≠ PROJECT_ROLE_DELEGATE →
      rolePermissionHasPermission superPerm targetRole user = true →
      user.can_update_members = true) ∧
    (targetRole = none →
      rolePermissionHasPermission superPerm targetRole user = false) := by
  refine ⟨?_, ?_, ?_, ?_⟩
  · intro h
    subst h
    simp [rolePermissionHasPermission]
  · intro h hperm
    subst h
    by_cases hs : superPerm <;>
      simp [rolePermissionHasPermission, hs, PROJECT_ROLE_DELEGATE,
        PROJECT_ROLE_OWNER] at hperm ⊢
    exact hperm
  · intro r h hro hrd hperm
    subst h
    by_cases hs : superPerm <;>
      simp [rolePermissionHasPermission, hs, hro, hrd] at hperm
    exact hperm
  · intro h
    subst h
    simp [rolePermissionHasPermission]

/-- Witness for C4 at concrete inputs: the owner assignment is denied even
for a user with both permissions; a delegate grant forces the delegate
permission; a guest grant forces the members permission; a missing
assignment is denied. -/
theorem role_permission_cases_witness :
    rolePermissionHasPermission true (some PROJECT_ROLE_OWNER) ⟨true, true⟩ = false ∧
    PermUser.can_update_delegate ⟨true, false⟩ = true ∧
    PermUser.can_update_members ⟨false, true⟩ = true ∧
    rolePermissionHasPermission true none ⟨true, true⟩ = false := by
  refine ⟨(role_permission_cases true (some PROJECT_ROLE_OWNER) ⟨true, true⟩).1 rfl,
    (role_permission_cases true (some PROJECT_ROLE_DELEGATE) ⟨true, false⟩).2.1 rfl (by decide),
    (role_permission_cases true (some "project guest") ⟨false, true⟩).2.2.1 "project guest"
      rfl (by decide) (by decide) (by decide),
    (role_permission_cases true none ⟨true, true⟩).2.2.2 rfl⟩

/-! ## C2: ProjectInviteAcceptView.get

    From projectroles/views.py.  The database state carries the
    ProjectInvite and RoleAssignment tables; users, projects and roles are
    identified by their ids.  The optional timeline and taskflow backends
    are not configured (both `get_backend_api` calls return None), so role
    assignment happens through the local-save branch.  `now` is the value
    of `timezone.now()` during the request. -/

structure InviteR where
  secret : String
  projectId : Nat
  roleName : String
  dateExpire : Int
  active : Bool
deriving DecidableEq

structure RoleAssignmentR where
  userId : Nat
  projectId : Nat
  roleName : String
deriving DecidableEq

structure InviteDb where
  invites : List InviteR
  roleAssignments : List RoleAssignmentR
deriving DecidableEq

inductive AcceptResp where
  | redirectHomeNoInvite
  | redirectDetailAlreadyMember (projectId : Nat)
  | redirectHomeExpired
  | redirectDetailSuccess (projectId : Nat)
deriving DecidableEq

/-- `revoke_invite`: set `invite.active` to False and save the invite. -/
def revokeInvite (secret : String) (db : InviteDb) : InviteDb :=
  { db with
    invites := db.invites.map fun i =>
      if i.secret == secret then { i with active := false } else i }

/-- The body of `ProjectInviteAcceptView.get` with the timeline and
taskflow backends absent. -/
def inviteAcceptGet (now : Int) (userId : Nat) (secret : String)
    (db : InviteDb) : InviteDb × AcceptResp :=
  match db.invites.find? (fun i => i.secret == secret) with
  | none => (db, .redirectHomeNoInvite)
  | some invite =>
    if db.roleAssignments.any
        (fun ra => ra.userId == userId && ra.projectId == invite.projectId) then
      (revokeInvite secret db, .redirectDetailAlreadyMember invite.projectId)
    else if invite.dateExpire < now then
      (revokeInvite secret db, .redirectHomeExpired)
    else
      ({ revokeInvite secret db with
          roleAssignments := db.roleAssignments ++
            [⟨userId, invite.projectId, invite.roleName⟩] },
        .redirectDetailSuccess invite.projectId)

theorem revokeInvite_deactivates (secret : String) (db : InviteDb) :
    ∀ i ∈ (revokeInvite secret db).invites, i.secret = secret → i.active = false := by
  intro i hi hsec
  simp only [revokeInvite, List.mem_map] at hi
  obtain ⟨j, _, hj⟩ := hi
  by_cases hjs : j.secret == secret
  · rw [if_pos hjs] at hj
    exact hj ▸ rfl
  · rw [if_neg hjs] at hj
    subst hj
    exact absurd (by simpa using hsec) (by simpa using hjs)

theorem revokeInvite_keeps_roleAssignments (secret : String) (db : InviteDb) :
    (revokeInvite secret db).roleAssignments = db.roleAssignments := rfl

/-- C2: accepting an invite: an unknown secret changes nothing and
redirects home with an error; a requester who already has a role in the
invite's project gets no new RoleAssignment and the invite is
deactivated; an expired invite yields no RoleAssignment and is
deactivated; otherwise a RoleAssignment with the invite's role in the
invite's project is created for the requester and the invite is
deactivated. -/
theorem invite_accept_cases (now : Int) (userId : Nat) (secret : String)
    (db : InviteDb) :
    (db.invites.find? (fun i => i.secret == secret) = none →
      inviteAcceptGet now userId secret db = (db, .redirectHomeNoInvite)) ∧
    (∀ invite, db.invites.find? (fun i => i.secret == secret) = some invite →
      (db.roleAssignments.any
          (fun ra => ra.userId == userId && ra.projectId == invite.projectId) = true →
        (inviteAcceptGet now userId secret db).1.roleAssignments =
            db.roleAssignments ∧
        (∀ i ∈ (inviteAcceptGet now userId secret db).1.invites,
            i.secret = secret → i.active = false) ∧
        (inviteAcceptGet now userId secret db).2 =
            .redirectDetailAlreadyMember invite.projectId) ∧
      (db.roleAssignments.any
          (fun ra => ra.userId == userId && ra.projectId == invite.projectId) = false →
        invite.dateExpire < now →
        (inviteAcceptGet now userId secret db).1.roleAssignments =
            db.roleAssignments ∧
        (∀ i ∈ (inviteAcceptGet now userId secret db).1.invites,
            i.secret = secret → i.active = false) ∧
        (inviteAcceptGet now userId secret db).2 = .redirectHomeExpired) ∧
      (db.roleAssignments.any
          (fun ra => ra.userId == userId && ra.projectId == invite.projectId) = false →
        ¬ invite.dateExpire < now →
        (inviteAcceptGet now userId secret db).1.roleAssignments =
            db.roleAssignments ++ [⟨userId, invite.projectId, invite.roleName⟩] ∧
        (∀ i ∈ (inviteAcceptGet now userId secret db).1.invites,
            i.secret = secret → i.active = false) ∧
        (inviteAcceptGet now userId secret db).2 =
            .redirectDetailSuccess invite.projectId)) := by
  constructor
  · intro hnone
    simp [inviteAcceptGet, hnone]
  · intro invite hfound
    refine ⟨?_, ?_, ?_⟩
    · intro hhas
      simp only [inviteAcceptGet, hfound, hhas, if_pos]
      exact ⟨by trivial, revokeInvite_deactivates secret db, by trivial⟩
    · intro hhas hexp
      simp only [inviteAcceptGet, hfound, hhas, Bool.false_eq_true, if_false,
        if_pos hexp]
      exact ⟨by trivial, revokeInvite_deactivates secret db, by trivial⟩
    · intro hhas hexp
      simp only [inviteAcceptGet, hfound, hhas, Bool.false_eq_true, if_false,
        if_neg hexp]
      exact ⟨by trivial, revokeInvite_deactivates secret db, by trivial⟩

/-- Witness for C2 at a concrete database: one fresh invite, no prior
role assignment, not expired; accepting creates the role assignment and
deactivates the invite. -/
theorem invite_accept_cases_witness :
    (inviteAcceptGet 5 1 "s" ⟨[⟨"s", 7, "project guest", 9, true⟩], []⟩).1.roleAssignments =
        [] ++ [⟨1, 7, "project guest"⟩] ∧
    (inviteAcceptGet 5 1 "s" ⟨[⟨"s", 7, "project guest", 9, true⟩], []⟩).2 =
        .redirectDetailSuccess 7 := by
  have h := (invite_accept_cases 5 1 "s"
      ⟨[⟨"s", 7, "project guest", 9, true⟩], []⟩).2
      ⟨"s", 7, "project guest", 9, true⟩ (by decide) |>.2.2 (by decide) (by decide)
  exact ⟨h.1, h.2.2⟩

/-! ## C7 and C8: RemoteProjectsBatchUpdateView.post and
    RemoteProjectsSyncView.get

    From projectroles/views.py.  The site whose access is edited is
    `siteId`; the POSTed `remote_access_<uuid>` fields are the
    `accessFields` association list (POST data is a dict, so the uuids are
    distinct in a real request); `confirmed` is the presence of the
    `update-confirmed` flag.  The state gathers the four tables named by
    the frame claim. -/

structure RemoteProjectR where
  siteId : Nat
  projectUuid : Nat
  level : String
deriving DecidableEq

structure SiteState where
  remoteProjects : List RemoteProjectR
  remoteSites : List Nat
  projects : List Nat
  roleAssignments : List RoleAssignmentR
deriving DecidableEq

inductive BatchResp where
  | errorTargetMode
  | warningNoChanges
  | confirmPage (mods : List (Nat × String × String))
  | success (count : Nat)
deriving DecidableEq

def findRemoteProject (rps : List RemoteProjectR) (siteId uuid : Nat) :
    Option RemoteProjectR :=
  match rps with
  | [] => none
  | rp :: rest =>
      if rp.siteId == siteId && rp.projectUuid == uuid then some rp
      else findRemoteProject rest siteId uuid

/-- The currently stored access level of a project for a site, a missing
RemoteProject record counting as REMOTE_LEVEL_NONE. -/
def storedLevel (rps : List RemoteProjectR) (siteId uuid : Nat) : String :=
  match findRemoteProject rps siteId uuid with
  | some rp => rp.level
  | none => REMOTE_LEVEL_NONE

/-- The `modifying_access` list built by the unconfirmed branch: an entry
`(project_uuid, old_level, new_level)` per changed field. -/
def modifyingAccess (siteId : Nat) (rps : List RemoteProjectR)
    (accessFields : List (Nat × String)) : List (Nat × String × String) :=
  accessFields.filterMap fun f =>
    match findRemoteProject rps siteId f.1 with
    | none =>
        if f.2 != REMOTE_LEVEL_NONE then some (f.1, REMOTE_LEVEL_NONE, f.2)
        else none
    | some rp =>
        if rp.level != f.2 then some (f.1, rp.level, f.2) else none

/-- The confirmed branch's per-field update: `rp.level = v; rp.save()` on
the existing record, or creation of a new RemoteProject. -/
def updateRemoteProject (siteId uuid : Nat) (v : String)
    (rps : List RemoteProjectR) : List RemoteProjectR :=
  match findRemoteProject rps siteId uuid with
  | some _ =>
      rps.map fun rp =>
        if rp.siteId == siteId && rp.projectUuid == uuid then
          { rp with level := v }
        else rp
  | none => rps ++ [⟨siteId, uuid, v⟩]

def remoteProjectsBatchUpdatePost (siteMode : String) (confirmed : Bool)
    (siteId : Nat) (accessFields : List (Nat × String)) (st : SiteState) :
    SiteState × BatchResp :=
  if siteMode != SITE_MODE_SOURCE then (st, .errorTargetMode)
  else if !confirmed then
    let mods := modifyingAccess siteId st.remoteProjects accessFields
    if mods.isEmpty then (st, .warningNoChanges)
    else (st, .confirmPage mods)
  else
    ({ st with
        remoteProjects := accessFields.foldl
          (fun acc f => updateRemoteProject siteId f.1 f.2 acc)
          st.remoteProjects },
      .success accessFields.length)

inductive SyncResp where
  | errorSourceMode
  | synced
deriving DecidableEq

/-- `RemoteProjectsSyncView.get`: in SOURCE mode the view redirects with
an error before touching anything; otherwise it runs the remote
synchronization, taken here as an opaque transition `doSync`. -/
def remoteProjectsSyncGet (siteMode : String)
    (doSync : SiteState → SiteState × SyncResp) (st : SiteState) :
    SiteState × SyncResp :=
  if siteMode == SITE_MODE_SOURCE then (st, .errorSourceMode)
  else doSync st


theorem findRemoteProject_spec (siteId uuid : Nat) :
    ∀ rps : List RemoteProjectR, ∀ rp,
      findRemoteProject rps siteId uuid = some rp →
      rp.siteId = siteId ∧ rp.projectUuid = uuid
  | [], rp, h => by cases h
  | rp0 :: rps, rp, h => by
      by_cases hp : (rp0.siteId == siteId && rp0.projectUuid == uuid) = true
      · simp only [findRemoteProject, if_pos hp] at h
        injection h with h
        subst h
        simpa using hp
      · simp only [findRemoteProject, if_neg hp] at h
        exact findRemoteProject_spec siteId uuid rps rp h

theorem mem_of_findRemoteProject (siteId uuid : Nat) :
    ∀ rps : List RemoteProjectR, ∀ rp,
      findRemoteProject rps siteId uuid = some rp → rp ∈ rps
  | [], rp, h => by cases h
  | rp0 :: rps, rp, h => by
      by_cases hp : (rp0.siteId == siteId && rp0.projectUuid == uuid) = true
      · simp only [findRemoteProject, if_pos hp] at h
        injection h with h
        exact h ▸ List.mem_cons_self rp0 rps
      · simp only [findRemoteProject, if_neg hp] at h
        exact List.mem_cons_of_mem rp0 (mem_of_findRemoteProject siteId uuid rps rp h)

theorem mem_modifyingAccess (siteId : Nat) (rps : List RemoteProjectR)
    (accessFields : List (Nat × String)) (uuid : Nat)
    (oldLevel newLevel : String) :
    (uuid, oldLevel, newLevel) ∈ modifyingAccess siteId rps accessFields ↔
      ((uuid, newLevel) ∈ accessFields ∧
        oldLevel = storedLevel rps siteId uuid ∧ newLevel ≠ oldLevel) := by
  unfold modifyingAccess
  rw [List.mem_filterMap]
  constructor
  · rintro ⟨⟨fu, fv⟩, hf, hg⟩
    rcases hfind : findRemoteProject rps siteId fu with _ | rp
    · rw [hfind] at hg
      by_cases hcond : (fv != REMOTE_LEVEL_NONE) = true
      · simp only [hcond, if_true, Option.some.injEq, Prod.mk.injEq] at hg
        obtain ⟨h1, h2, h3⟩ := hg
        subst h1
        subst h3
        subst h2
        exact ⟨hf, by simp [storedLevel, hfind], by simpa [bne_iff_ne] using hcond⟩
      · simp only [hcond, if_false] at hg
        cases hg
    · rw [hfind] at hg
      by_cases hcond : (rp.level != fv) = true
      · simp only [hcond, if_true, Option.some.injEq, Prod.mk.injEq] at hg
        obtain ⟨h1, h2, h3⟩ := hg
        subst h1
        subst h3
        subst h2
        refine ⟨hf, by simp [storedLevel, hfind], ?_⟩
        have hlv := bne_iff_ne.mp hcond
        exact fun heq => hlv heq.symm
      · simp only [hcond, if_false] at hg
        cases hg
  · rintro ⟨hf, hold, hne⟩
    refine ⟨(uuid, newLevel), hf, ?_⟩
    rcases hfind : findRemoteProject rps siteId uuid with _ | rp
    · simp only [storedLevel, hfind] at hold
      have hne' : (newLevel != REMOTE_LEVEL_NONE) = true :=
        bne_iff_ne.mpr (hold ▸ hne)
      simp [hfind, hne', hold]
    · simp only [storedLevel, hfind] at hold
      have hne' : (rp.level != newLevel) = true :=
        bne_iff_ne.mpr (fun heq => hne (hold ▸ heq.symm))
      simp [hfind, hne', hold]

theorem modifyingAccess_eq_nil (siteId : Nat) (rps : List RemoteProjectR)
    (accessFields : List (Nat × String))
    (h : ∀ f ∈ accessFields, f.2 = storedLevel rps siteId f.1) :
    modifyingAccess siteId rps accessFields = [] := by
  unfold modifyingAccess
  rw [List.filterMap_eq_nil_iff]
  intro f hf
  have hfl := h f hf
  rcases hfind : findRemoteProject rps siteId f.1 with _ | rp
  · simp only [storedLevel, hfind] at hfl
    simp [hfind, hfl]
  · simp only [storedLevel, hfind] at hfl
    simp [hfind, hfl]

theorem findRemoteProject_map_set (siteId uuid : Nat) (v : String)
    (rps : List RemoteProjectR) :
    findRemoteProject
        (rps.map fun rp =>
          if rp.siteId == siteId && rp.projectUuid == uuid then
            { rp with level := v }
          else rp)
        siteId uuid
      = (findRemoteProject rps siteId uuid).map fun rp =>
          { rp with level := v } := by
  induction rps with
  | nil => rfl
  | cons rp rps ih =>
    by_cases h : (rp.siteId == siteId && rp.projectUuid == uuid) = true
    · simp [findRemoteProject, h]
    · rw [List.map_cons, if_neg h]
      simp only [findRemoteProject]
      rw [if_neg h, if_neg h]
      exact ih

theorem findRemoteProject_append_new (siteId uuid : Nat) (v : String)
    (rps : List RemoteProjectR)
    (h : findRemoteProject rps siteId uuid = none) :
    findRemoteProject (rps ++ [⟨siteId, uuid, v⟩]) siteId uuid =
      some ⟨siteId, uuid, v⟩ := by
  induction rps with
  | nil => simp [findRemoteProject]
  | cons rp rps ih =>
    by_cases hp : (rp.siteId == siteId && rp.projectUuid == uuid) = true
    · simp [findRemoteProject, hp] at h
    · simp only [findRemoteProject, if_neg hp] at h
      simp only [List.cons_append, findRemoteProject, if_neg hp]
      exact ih h

theorem findRemoteProject_update_other (siteId uuid uuid' : Nat) (v : String)
    (hne : uuid' ≠ uuid) (rps : List RemoteProjectR) :
    findRemoteProject (updateRemoteProject siteId uuid v rps) siteId uuid'
      = findRemoteProject rps siteId uuid' := by
  have hmap : ∀ l : List RemoteProjectR,
      findRemoteProject
          (l.map fun rp =>
            if rp.siteId == siteId && rp.projectUuid == uuid then
              { rp with level := v }
            else rp)
          siteId uuid'
        = findRemoteProject l siteId uuid' := by
    intro l
    induction l with
    | nil => rfl
    | cons rp l ih =>
      by_cases h : (rp.siteId == siteId && rp.projectUuid == uuid) = true
      · have h2 : ¬ (rp.siteId == siteId && rp.projectUuid == uuid') = true := by
          simp only [Bool.and_eq_true, beq_iff_eq] at h ⊢
          rintro ⟨-, h4⟩
          exact hne (h4.symm.trans h.2)
        rw [List.map_cons, if_pos h]
        simp only [findRemoteProject]
        rw [if_neg h2, if_neg h2]
        exact ih
      · by_cases h' : (rp.siteId == siteId && rp.projectUuid == uuid') = true
        · rw [List.map_cons, if_neg h]
          simp only [findRemoteProject]
          rw [if_pos h', if_pos h']
        · rw [List.map_cons, if_neg h]
          simp only [findRemoteProject]
          rw [if_neg h', if_neg h']
          exact ih
  have happ : ∀ l : List RemoteProjectR,
      findRemoteProject (l ++ [⟨siteId, uuid, v⟩]) siteId uuid'
        = findRemoteProject l siteId uuid' := by
    intro l
    induction l with
    | nil => simp [findRemoteProject, Ne.symm hne]
    | cons rp l ih =>
      by_cases h' : (rp.siteId == siteId && rp.projectUuid == uuid') = true
      · simp [findRemoteProject, h']
      · simp [findRemoteProject, h', ih]
  unfold updateRemoteProject
  rcases hfind : findRemoteProject rps siteId uuid with _ | rp
  · exact happ rps
  · exact hmap rps

theorem findRemoteProject_update_self (siteId uuid : Nat) (v : String)
    (rps : List RemoteProjectR) :
    ∃ rp,
      findRemoteProject (updateRemoteProject siteId uuid v rps) siteId uuid
        = some rp ∧
      rp.siteId = siteId ∧ rp.projectUuid = uuid ∧ rp.level = v := by
  unfold updateRemoteProject
  rcases hfind : findRemoteProject rps siteId uuid with _ | rp0
  · exact ⟨⟨siteId, uuid, v⟩,
      findRemoteProject_append_new siteId uuid v rps hfind, rfl, rfl, rfl⟩
  · obtain ⟨h1, h2⟩ := findRemoteProject_spec siteId uuid rps rp0 hfind
    refine ⟨{ rp0 with level := v }, ?_, h1, h2, rfl⟩
    rw [findRemoteProject_map_set, hfind]
    rfl

theorem foldl_update_untouched (siteId : Nat) :
    ∀ (fields : List (Nat × String)) (rps : List RemoteProjectR) (uuid : Nat),
      uuid ∉ fields.map Prod.fst →
      findRemoteProject
          (fields.foldl (fun acc g => updateRemoteProject siteId g.1 g.2 acc)
            rps)
          siteId uuid
        = findRemoteProject rps siteId uuid
  | [], _, _, _ => rfl
  | g :: gs, rps, uuid, hni => by
      rw [List.foldl_cons]
      have hne : uuid ≠ g.1 := fun heq => hni (by simp [heq])
      have hni' : uuid ∉ gs.map Prod.fst := fun hmem => hni (by simp [hmem])
      rw [foldl_update_untouched siteId gs _ uuid hni']
      exact findRemoteProject_update_other siteId g.1 uuid g.2 hne rps

theorem foldl_update_sets (siteId : Nat) :
    ∀ (fields : List (Nat × String)) (rps : List RemoteProjectR),
      (fields.map Prod.fst).Nodup →
      ∀ f ∈ fields,
        ∃ rp,
          findRemoteProject
              (fields.foldl
                (fun acc g => updateRemoteProject siteId g.1 g.2 acc) rps)
              siteId f.1
            = some rp ∧
          rp.siteId = siteId ∧ rp.projectUuid = f.1 ∧ rp.level = f.2
  | [], _, _, f, hf => absurd hf (List.not_mem_nil f)
  | g :: gs, rps, hnd, f, hf => by
      rw [List.map_cons, List.nodup_cons] at hnd
      rw [List.foldl_cons]
      rcases List.mem_cons.mp hf with rfl | hmem
      · obtain ⟨rp, hfind, h1, h2, h3⟩ :=
          findRemoteProject_update_self siteId f.1 f.2 rps
        exact ⟨rp,
          by rw [foldl_update_untouched siteId gs _ f.1 hnd.1]; exact hfind,
          h1, h2, h3⟩
      · exact foldl_update_sets siteId gs
          (updateRemoteProject siteId g.1 g.2 rps) hnd.2 f hmem

/-- C7: in SOURCE mode without the confirmation flag, a project reaches the
confirmation list exactly when the submitted level differs from the stored
level (a missing RemoteProject counting as REMOTE_LEVEL_NONE), the state is
untouched, and when nothing differs the user is redirected back with a
warning; with the confirmation flag every submitted field yields a
RemoteProject for the site and project holding the submitted level. -/
theorem remote_batch_update_ok (siteId : Nat)
    (accessFields : List (Nat × String)) (st : SiteState) :
    (∀ mods,
      (remoteProjectsBatchUpdatePost SITE_MODE_SOURCE false siteId accessFields
          st).2 = .confirmPage mods →
      ∀ uuid oldLevel newLevel,
        (uuid, oldLevel, newLevel) ∈ mods ↔
          ((uuid, newLevel) ∈ accessFields ∧
            oldLevel = storedLevel st.remoteProjects siteId uuid ∧
            newLevel ≠ oldLevel)) ∧
    ((remoteProjectsBatchUpdatePost SITE_MODE_SOURCE false siteId accessFields
        st).1 = st) ∧
    ((∀ f ∈ accessFields, f.2 = storedLevel st.remoteProjects siteId f.1) →
      remoteProjectsBatchUpdatePost SITE_MODE_SOURCE false siteId accessFields
          st = (st, .warningNoChanges)) ∧
    ((accessFields.map Prod.fst).Nodup →
      ∀ f ∈ accessFields,
        ∃ rp ∈ (remoteProjectsBatchUpdatePost SITE_MODE_SOURCE true siteId
            accessFields st).1.remoteProjects,
          rp.siteId = siteId ∧ rp.projectUuid = f.1 ∧ rp.level = f.2) := by
  refine ⟨?_, ?_, ?_, ?_⟩
  · intro mods hresp uuid oldLevel newLevel
    by_cases hemp : (modifyingAccess siteId st.remoteProjects accessFields).isEmpty
    · simp [remoteProjectsBatchUpdatePost, hemp] at hresp
    · simp only [remoteProjectsBatchUpdatePost, bne_self_eq_false,
        Bool.false_eq_true, if_false, Bool.not_false, if_true, hemp,
        BatchResp.confirmPage.injEq] at hresp
      subst hresp
      exact mem_modifyingAccess siteId st.remoteProjects accessFields uuid
        oldLevel newLevel
  · by_cases hemp : (modifyingAccess siteId st.remoteProjects accessFields).isEmpty <;>
      simp [remoteProjectsBatchUpdatePost, hemp]
  · intro hsame
    have hnil := modifyingAccess_eq_nil siteId st.remoteProjects accessFields hsame
    simp [remoteProjectsBatchUpdatePost, hnil]
  · intro hnd f hf
    obtain ⟨rp, hfind, h1, h2, h3⟩ :=
      foldl_update_sets siteId accessFields st.remoteProjects hnd f hf
    refine ⟨rp, ?_, h1, h2, h3⟩
    have hmem := mem_of_findRemoteProject siteId f.1 _ rp hfind
    simpa [remoteProjectsBatchUpdatePost] using hmem

/-- Witness for C7 at a concrete input: confirmed update on an empty
RemoteProject table creates the record with the submitted level. -/
theorem remote_batch_update_ok_witness :
    ∃ rp ∈ (remoteProjectsBatchUpdatePost SITE_MODE_SOURCE true 1
        [(5, "READ_ROLES")] ⟨[], [], [], []⟩).1.remoteProjects,
      rp.siteId = 1 ∧ rp.projectUuid = 5 ∧ rp.level = "READ_ROLES" :=
  (remote_batch_update_ok 1 [(5, "READ_ROLES")] ⟨[], [], [], []⟩).2.2.2
    (by decide) (5, "READ_ROLES") (by decide)

/-- C8: the remote-sync operations are gated by site mode: a batch access
update on a site not in SOURCE mode, and a remote sync on a site in SOURCE
mode, leave every RemoteProject, RemoteSite, Project and RoleAssignment
unchanged and redirect with an error message. -/
theorem wrong_site_mode_changes_nothing (siteMode : String) (confirmed : Bool)
    (siteId : Nat) (accessFields : List (Nat × String)) (st : SiteState)
    (doSync : SiteState → SiteState × SyncResp) :
    (siteMode ≠ SITE_MODE_SOURCE →
      remoteProjectsBatchUpdatePost siteMode confirmed siteId accessFields st
        = (st, .errorTargetMode)) ∧
    (siteMode = SITE_MODE_SOURCE →
      remoteProjectsSyncGet siteMode doSync st = (st, .errorSourceMode)) := by
  constructor
  · intro h
    simp [remoteProjectsBatchUpdatePost, h]
  · intro h
    simp [remoteProjectsSyncGet, h]

/-- Witness for C8 at concrete inputs: a TARGET-mode batch update and a
SOURCE-mode sync both return the state unchanged with an error. -/
theorem wrong_site_mode_changes_nothing_witness :
    remoteProjectsBatchUpdatePost SITE_MODE_TARGET false 1 [(5, "NONE")]
        ⟨[⟨1, 5, "READ_ROLES"⟩], [1], [5], []⟩
      = (⟨[⟨1, 5, "READ_ROLES"⟩], [1], [5], []⟩, .errorTargetMode) ∧
    remoteProjectsSyncGet SITE_MODE_SOURCE
        (fun s => ({ s with remoteSites := [] }, .synced))
        ⟨[⟨1, 5, "READ_ROLES"⟩], [1], [5], []⟩
      = (⟨[⟨1, 5, "READ_ROLES"⟩], [1], [5], []⟩, .errorSourceMode) :=
  ⟨(wrong_site_mode_changes_nothing SITE_MODE_TARGET false 1 [(5, "NONE")]
      ⟨[⟨1, 5, "READ_ROLES"⟩], [1], [5], []⟩
      (fun s => ({ s with remoteSites := [] }, .synced))).1 (by decide),
   (wrong_site_mode_changes_nothing SITE_MODE_SOURCE false 1 [(5, "NONE")]
      ⟨[⟨1, 5, "READ_ROLES"⟩], [1], [5], []⟩
      (fun s => ({ s with remoteSites := [] }, .synced))).2 rfl⟩

/-! ## C9: RoleAssignmentOwnerTransferView.transfer_ownership

    From projectroles/views.py: `prev_owner.role = prev_owner_role;
    prev_owner.save()`, then the new owner's assignment is fetched with
    `RoleAssignment.objects.get_assignment` and set to the owner role.
    Saving a fetched assignment is modelled as the keyed update of the
    RoleAssignment table (one row per user and project, per the model's
    unique constraint). -/

/-- Saving a RoleAssignment whose `role` attribute was reassigned: the row
keyed by user and project gets the new role name. -/
def setRole (userId projectId : Nat) (roleName : String)
    (ras : List RoleAssignmentR) : List RoleAssignmentR :=
  ras.map fun ra =>
    if ra.userId == userId && ra.projectId == projectId then
      { ra with roleName := roleName }
    else ra

/-- `transfer_ownership`: give the previous owner's assignment the chosen
ex-owner role and save it, then set the new owner's assignment to the
owner role and save it. -/
def transfer_ownership (projectId prevOwner newOwner : Nat)
    (exOwnerRole : String) (ras : List RoleAssignmentR) :
    List RoleAssignmentR :=
  setRole newOwner projectId PROJECT_ROLE_OWNER
    (setRole prevOwner projectId exOwnerRole ras)

/-- C9: if the project has exactly one owner assignment, held by the
previous owner, and the new owner already holds an assignment in the
project, then after `transfer_ownership` the project again has exactly one
owner assignment, held by the new owner; the previous owner's assignment
carries the selected ex-owner role; assignments of other users or other
projects are untouched.  The hypotheses `hne` and `hex` reflect the
transfer form, which offers only non-owner roles for the previous owner
and only other members as the new owner. -/
theorem ownership_transfer_invariant (projectId prevOwner newOwner : Nat)
    (exOwnerRole : String) (ras : List RoleAssignmentR)
    (howner : ∀ ra ∈ ras,
      (ra.projectId = projectId ∧ ra.roleName = PROJECT_ROLE_OWNER) ↔
        (ra.userId = prevOwner ∧ ra.projectId = projectId))
    (hprev1 : ras.countP
      (fun ra => ra.userId == prevOwner && ra.projectId == projectId) = 1)
    (hnew1 : ras.countP
      (fun ra => ra.userId == newOwner && ra.projectId == projectId) = 1)
    (hne : prevOwner ≠ newOwner)
    (hex : exOwnerRole ≠ PROJECT_ROLE_OWNER) :
    ((transfer_ownership projectId prevOwner newOwner exOwnerRole ras).countP
      (fun ra => ra.projectId == projectId &&
        ra.roleName == PROJECT_ROLE_OWNER) = 1) ∧
    (∀ ra ∈ transfer_ownership projectId prevOwner newOwner exOwnerRole ras,
      ra.projectId = projectId → ra.roleName = PROJECT_ROLE_OWNER →
      ra.userId = newOwner) ∧
    (∀ ra ∈ transfer_ownership projectId prevOwner newOwner exOwnerRole ras,
      ra.userId = prevOwner → ra.projectId = projectId →
      ra.roleName = exOwnerRole) ∧
    (∀ ra ∈ ras,
      (ra.projectId ≠ projectId ∨
        (ra.userId ≠ prevOwner ∧ ra.userId ≠ newOwner)) →
      ra ∈ transfer_ownership projectId prevOwner newOwner exOwnerRole ras) := by
  refine ⟨?_, ?_, ?_, ?_⟩
  · unfold transfer_ownership setRole
    rw [List.map_map, List.countP_map]
    rw [← hnew1]
    apply List.countP_congr
    intro ra hra
    by_cases c1 : (ra.userId == prevOwner && ra.projectId == projectId) = true
    · have c1' := c1
      simp only [Bool.and_eq_true, beq_iff_eq] at c1'
      have huid : ra.userId = prevOwner := c1'.1
      have c2 : ¬ (ra.userId == newOwner && ra.projectId == projectId) = true := by
        simp only [Bool.and_eq_true, beq_iff_eq, not_and]
        intro h _
        exact hne (huid ▸ h)
      simp only [Function.comp_apply, if_pos c1]
      rw [if_neg c2]
      simp only [Bool.and_eq_true, beq_iff_eq]
      constructor
      · rintro ⟨-, habs⟩
        exact absurd habs hex
      · rintro ⟨h1, -⟩
        exact absurd (huid ▸ h1) hne
    · simp only [Function.comp_apply, if_neg c1]
      by_cases c2 : (ra.userId == newOwner && ra.projectId == projectId) = true
      · rw [if_pos c2]
        simp only [Bool.and_eq_true, beq_iff_eq] at c2 ⊢
        simp [c2.1, c2.2]
      · rw [if_neg c2]
        simp only [Bool.and_eq_true, beq_iff_eq] at c1 c2 ⊢
        constructor
        · rintro ⟨h1, h2⟩
          exact absurd ((howner ra hra).mp ⟨h1, h2⟩) (by
            rintro ⟨h3, h4⟩
            exact c1 ⟨h3, h4⟩)
        · rintro ⟨h1, h2⟩
          exact absurd ⟨h1, h2⟩ c2
  · intro ra' hmem hproj hrole
    obtain ⟨ra1, hmem1, hra1⟩ := List.mem_map.mp hmem
    obtain ⟨ra0, hmem0, hra0⟩ := List.mem_map.mp hmem1
    by_cases c2 : (ra1.userId == newOwner && ra1.projectId == projectId) = true
    · rw [if_pos c2] at hra1
      have c2' := c2
      simp only [Bool.and_eq_true, beq_iff_eq] at c2'
      rw [← hra1]
      exact c2'.1
    · rw [if_neg c2] at hra1
      subst hra1
      by_cases c1 : (ra0.userId == prevOwner && ra0.projectId == projectId) = true
      · rw [if_pos c1] at hra0
        subst hra0
        exact absurd hrole hex
      · rw [if_neg c1] at hra0
        subst hra0
        have hprev := (howner ra0 hmem0).mp ⟨hproj, hrole⟩
        exact absurd (by simp [hprev.1, hprev.2]) c1
  · intro ra' hmem huser hproj
    obtain ⟨ra1, hmem1, hra1⟩ := List.mem_map.mp hmem
    obtain ⟨ra0, hmem0, hra0⟩ := List.mem_map.mp hmem1
    by_cases c2 : (ra1.userId == newOwner && ra1.projectId == projectId) = true
    · rw [if_pos c2] at hra1
      have heq : ra'.userId = ra1.userId := by rw [← hra1]
      rw [huser] at heq
      have c2' := c2
      simp only [Bool.and_eq_true, beq_iff_eq] at c2'
      exact absurd (heq.trans c2'.1) hne
    · rw [if_neg c2] at hra1
      subst hra1
      by_cases c1 : (ra0.userId == prevOwner && ra0.projectId == projectId) = true
      · rw [if_pos c1] at hra0
        rw [← hra0]
      · rw [if_neg c1] at hra0
        subst hra0
        exact absurd (by simp [huser, hproj]) c1
  · intro ra hmem hcond
    have c1 : ¬ (ra.userId == prevOwner && ra.projectId == projectId) = true := by
      simp only [Bool.and_eq_true, beq_iff_eq, not_and]
      intro h1 h2
      rcases hcond with h | h
      · exact h h2
      · exact h.1 h1
    have c2 : ¬ (ra.userId == newOwner && ra.projectId == projectId) = true := by
      simp only [Bool.and_eq_true, beq_iff_eq, not_and]
      intro h1 h2
      rcases hcond with h | h
      · exact h h2
      · exact h.2 h1
    refine List.mem_map.mpr ⟨ra, List.mem_map.mpr ⟨ra, hmem, if_neg c1⟩, if_neg c2⟩

/-- Witness for C9 at a concrete table: owner 1 hands project 4 to
contributor 2, who becomes the sole owner while user 1 keeps the selected
guest role; user 3's assignment in project 9 is untouched. -/
theorem ownership_transfer_invariant_witness :
    (transfer_ownership 4 1 2 "project guest"
        [⟨1, 4, PROJECT_ROLE_OWNER⟩, ⟨2, 4, "project contributor"⟩,
          ⟨3, 9, PROJECT_ROLE_OWNER⟩]).countP
      (fun ra => ra.projectId == 4 && ra.roleName == PROJECT_ROLE_OWNER) = 1 := by
  have h := ownership_transfer_invariant 4 1 2 "project guest"
    [⟨1, 4, PROJECT_ROLE_OWNER⟩, ⟨2, 4, "project contributor"⟩,
      ⟨3, 9, PROJECT_ROLE_OWNER⟩]
    (by decide) (by decide) (by decide) (by decide) (by decide)
  exact h.1

/-! ## C10: ProjectStarringAjaxView.post

    From projectroles/views_ajax.py.  The ProjectUserTag table (rows
    tagging a project as starred by a user) is the list of
    (projectId, userId) pairs; the timeline backend is absent. -/

/-- Modelled from the spec: `get_tag_state` of project_tags.py (absent
from the source tree): whether the user has starred the project. -/
def get_tag_state (tags : List (Nat × Nat)) (projectId userId : Nat) : Bool :=
  tags.any (fun t => t.1 == projectId && t.2 == userId)

/-- Modelled from the spec: `set_tag_state` of project_tags.py (absent
from the source tree) toggles the star tag for the project and user, in
line with the view (`action_str` is `unstar` when the tag exists, `star`
otherwise). -/
def set_tag_state (tags : List (Nat × Nat)) (projectId userId : Nat) :
    List (Nat × Nat) :=
  if get_tag_state tags projectId userId then
    tags.filter (fun t => !(t.1 == projectId && t.2 == userId))
  else tags ++ [(projectId, userId)]

/-- The body of `ProjectStarringAjaxView.post`: returns the new tag table
and the HTTP response as (body, status). -/
def projectStarringPost (tags : List (Nat × Nat)) (projectId userId : Nat) :
    List (Nat × Nat) × Nat × Nat :=
  (set_tag_state tags projectId userId,
    (if get_tag_state tags projectId userId then 0 else 1, 200))

theorem get_tag_state_toggle (tags : List (Nat × Nat)) (projectId userId : Nat) :
    get_tag_state (set_tag_state tags projectId userId) projectId userId
      = !get_tag_state tags projectId userId := by
  by_cases h : get_tag_state tags projectId userId = true
  · unfold set_tag_state
    rw [if_pos h, h, Bool.not_true]
    unfold get_tag_state
    rw [List.any_eq_false]
    intro t ht
    rw [List.mem_filter] at ht
    simpa [not_or, imp_iff_not_or] using ht.2
  · rw [Bool.not_eq_true] at h
    rw [set_tag_state, if_neg (by simp [h]), h]
    simp [get_tag_state, List.any_append]

/-- C10: a POST to the starring view answers body 1 when the project was
not starred by the user and 0 when it was, with status 200, and flips the
user's starred state; two consecutive POSTs restore the original state. -/
theorem project_starring_post_ok (tags : List (Nat × Nat))
    (projectId userId : Nat) :
    ((projectStarringPost tags projectId userId).2
      = (if get_tag_state tags projectId userId then 0 else 1, 200)) ∧
    (get_tag_state (projectStarringPost tags projectId userId).1
        projectId userId
      = !get_tag_state tags projectId userId) ∧
    (get_tag_state
        (projectStarringPost
          (projectStarringPost tags projectId userId).1 projectId userId).1
        projectId userId
      = get_tag_state tags projectId userId) := by
  refine ⟨rfl, get_tag_state_toggle tags projectId userId, ?_⟩
  unfold projectStarringPost
  rw [get_tag_state_toggle, get_tag_state_toggle, Bool.not_not]

/-! ## C5 and C6: AppSettingAPI

    app_settings.py is absent from the source tree; the API is modelled
    from the spec ("a typed settings registry with scope validation") and
    its test suite projectroles/tests/test_app_settings_api.py.  Values of
    the four setting types are `SValue`; `vJson` stands for a
    JSON-serializable value by its dump, `vObj` for a non-serializable
    object. -/

inductive SValue where
  | vStr (s : String)
  | vInt (n : Int)
  | vBool (b : Bool)
  | vJson (dump : String)
  | vObj
deriving DecidableEq

def APP_SETTING_TYPES : List String := ["BOOLEAN", "INTEGER", "STRING", "JSON"]

/-- The claim-side conformance relation: what it means for a value to
conform to a declared setting type; STRING accepts every value, INTEGER
also accepts strings denoting an integer. -/
def isDigitString (s : String) : Bool :=
  !s.data.isEmpty && s.data.all Char.isDigit

def conformsToType (settingType : String) (v : SValue) : Bool :=
  if settingType == "STRING" then true
  else if settingType == "INTEGER" then
    match v with
    | .vInt _ => true
    | .vStr s => isDigitString s
    | _ => false
  else if settingType == "BOOLEAN" then
    match v with
    | .vBool _ => true
    | _ => false
  else if settingType == "JSON" then
    match v with
    | .vObj => false
    | _ => true
  else false

/-- Modelled from the spec: `AppSettingAPI.validate_setting` (absent
app_settings.py) raises ValueError for an unknown setting type or a value
not matching the type, and returns True otherwise; per its tests, INTEGER
accepts digit strings such as `170` and rejects `Nan`, BOOLEAN rejects
the integer 170, STRING never rejects. -/
def validate_setting (settingType : String) (settingValue : SValue) :
    Except String Bool :=
  if !(APP_SETTING_TYPES.contains settingType) then
    .error "ValueError: invalid setting type"
  else if settingType == "BOOLEAN" then
    match settingValue with
    | .vBool _ => .ok true
    | _ => .error "ValueError: please enter a valid boolean value"
  else if settingType == "INTEGER" then
    match settingValue with
    | .vInt _ => .ok true
    | .vStr s =>
        if isDigitString s then .ok true
        else .error "ValueError: please enter a valid integer value"
    | _ => .error "ValueError: please enter a valid integer value"
  else if settingType == "JSON" then
    match settingValue with
    | .vObj => .error "ValueError: value is not JSON-serializable"
    | _ => .ok true
  else .ok true

/-- C6: `validate_setting` returns True exactly on the values conforming
to a known declared type (digit strings conform to INTEGER), and raises
ValueError otherwise; STRING values are never rejected.  The concrete
instances of the claim are included: '170' as INTEGER is accepted, 'Nan'
as INTEGER, 170 as BOOLEAN and an unknown type raise ValueError. -/
theorem validate_setting_ok (t : String) (v : SValue) :
    (validate_setting t v = .ok true ↔
      (APP_SETTING_TYPES.contains t = true ∧ conformsToType t v = true)) ∧
    (validate_setting t v = .ok true ∨
      ∃ m, validate_setting t v = .error m) ∧
    (validate_setting "STRING" v = .ok true) ∧
    (validate_setting "INTEGER" (.vStr "170") = .ok true) ∧
    (∃ m, validate_setting "INTEGER" (.vStr "Nan") = .error m) ∧
    (∃ m, validate_setting "BOOLEAN" (.vInt 170) = .error m) ∧
    (∃ m, validate_setting "INVALID_TYPE" (.vStr "value") = .error m) := by
  refine ⟨?_, ?_, by cases v <;> rfl, rfl, ⟨_, rfl⟩, ⟨_, rfl⟩, ⟨_, rfl⟩⟩
  · by_cases h1 : t = "STRING" <;> by_cases h2 : t = "INTEGER" <;>
      by_cases h3 : t = "BOOLEAN" <;> by_cases h4 : t = "JSON" <;>
      cases v <;>
      simp_all [validate_setting, conformsToType, APP_SETTING_TYPES, ite_eq_iff]
  · by_cases h1 : t = "STRING" <;> by_cases h2 : t = "INTEGER" <;>
      by_cases h3 : t = "BOOLEAN" <;> by_cases h4 : t = "JSON" <;>
      cases v <;>
      simp_all [validate_setting, conformsToType, APP_SETTING_TYPES, ite_eq_iff]

structure SettingDefn where
  settingType : String
  defaultValue : SValue
deriving DecidableEq

/-- The settings state: the plugin-declared setting definitions and the
stored AppSetting rows, both keyed by (app name, setting name). -/
structure AppSettings where
  settingDefs : List ((String × String) × SettingDefn)
  stored : List ((String × String) × SValue)
deriving DecidableEq

def lookupByKey {β : Type} (l : List ((String × String) × β))
    (k : String × String) : Option β :=
  match l with
  | [] => none
  | e :: rest => if e.1 == k then some e.2 else lookupByKey rest k

/-- Modelled from the spec: `AppSettingAPI.get_app_setting` (absent
app_settings.py) returns the stored value, falling back to the declared
default, and raises KeyError for an undefined setting. -/
def get_app_setting (m : AppSettings) (appName settingName : String) :
    Except String SValue :=
  match lookupByKey m.stored (appName, settingName) with
  | some v => .ok v
  | none =>
      match lookupByKey m.settingDefs (appName, settingName) with
      | some d => .ok d.defaultValue
      | none => .error "KeyError"

/-- Modelled from the spec: `AppSettingAPI.set_app_setting` (absent
app_settings.py) validates the value, returns False leaving the row
untouched when the stored value already equals it, updates or creates the
row and returns True otherwise; an undefined setting raises KeyError. -/
def set_app_setting (m : AppSettings) (appName settingName : String)
    (value : SValue) : Except String (Bool × AppSettings) :=
  match lookupByKey m.settingDefs (appName, settingName) with
  | none => .error "KeyError"
  | some d =>
      match validate_setting d.settingType value with
      | .error e => .error e
      | .ok _ =>
          match lookupByKey m.stored (appName, settingName) with
          | some cur =>
              if cur = value then .ok (false, m)
              else
                .ok (true,
                  { m with
                    stored := m.stored.map fun e =>
                      if e.1 == (appName, settingName) then (e.1, value)
                      else e })
          | none =>
              .ok (true,
                { m with
                  stored := m.stored ++ [((appName, settingName), value)] })

theorem lookupByKey_map_update {β : Type} (k : String × String) (v : β) :
    ∀ l : List ((String × String) × β), ∀ cur,
      lookupByKey l k = some cur →
      lookupByKey (l.map fun e => if e.1 == k then (e.1, v) else e) k = some v
  | [], _, h => by cases h
  | e :: rest, cur, h => by
      by_cases hk : (e.1 == k) = true
      · rw [List.map_cons, if_pos hk]
        simp only [lookupByKey]
        rw [if_pos hk]
      · rw [List.map_cons, if_neg hk]
        simp only [lookupByKey, if_neg hk] at h ⊢
        exact lookupByKey_map_update k v rest cur h

/-- C5: for a defined setting holding a stored value and a value valid for
its type, `set_app_setting` returns True and updates the value readable by
`get_app_setting` when the new value differs, and returns False leaving
the stored value unchanged when it is equal. -/
theorem set_get_app_setting (m : AppSettings) (appName settingName : String)
    (value cur : SValue) (d : SettingDefn)
    (hdef : lookupByKey m.settingDefs (appName, settingName) = some d)
    (hval : validate_setting d.settingType value = .ok true)
    (hcur : lookupByKey m.stored (appName, settingName) = some cur) :
    (cur ≠ value →
      ∃ m', set_app_setting m appName settingName value = .ok (true, m') ∧
        get_app_setting m' appName settingName = .ok value) ∧
    (cur = value →
      set_app_setting m appName settingName value = .ok (false, m) ∧
      get_app_setting m appName settingName = .ok cur) := by
  constructor
  · intro hne
    refine ⟨{ m with
        stored := m.stored.map fun e =>
          if e.1 == (appName, settingName) then (e.1, value) else e },
      ?_, ?_⟩
    · simp only [set_app_setting, hdef, hval, hcur, if_neg hne]
    · simp only [get_app_setting,
        lookupByKey_map_update (appName, settingName) value m.stored cur hcur]
  · intro heq
    constructor
    · simp only [set_app_setting, hdef, hval, hcur, if_pos heq]
    · simp only [get_app_setting, hcur]

/-- Witness for C5 at a concrete state: updating a STRING setting from
`test` to `better test` returns True and the new value is read back. -/
theorem set_get_app_setting_witness :
    ∃ m', set_app_setting
        ⟨[(("example_project_app", "project_str_setting"),
            ⟨"STRING", .vStr ""⟩)],
          [(("example_project_app", "project_str_setting"), .vStr "test")]⟩
        "example_project_app" "project_str_setting" (.vStr "better test")
        = .ok (true, m') ∧
      get_app_setting m' "example_project_app" "project_str_setting"
        = .ok (.vStr "better test") :=
  (set_get_app_setting
      ⟨[(("example_project_app", "project_str_setting"),
          ⟨"STRING", .vStr ""⟩)],
        [(("example_project_app", "project_str_setting"), .vStr "test")]⟩
      "example_project_app" "project_str_setting"
      (.vStr "better test") (.vStr "test") ⟨"STRING", .vStr ""⟩
      rfl rfl rfl).1 (by decide)

/-! ## C1: get_project_list (projectroles/templatetags/projectroles_tags.py)

    The project forest is modelled as rose trees: a node carries the
    title, the submit_status, the ids of the users holding a
    RoleAssignment in the project, and the child projects.  The input of
    `get_project_list(user, parent)` is the list of direct children of
    `parent` in database order; the queryset's `order_by('title')` is an
    insertion sort on titles. -/

structure UserT where
  is_superuser : Bool
  is_anonymous : Bool
  uid : Nat

inductive PTree : Type where
  | node : String → String → List Nat → List PTree → PTree

def PTree.title : PTree → String
  | .node t _ _ _ => t

def PTree.submit_status : PTree → String
  | .node _ s _ _ => s

def PTree.roles : PTree → List Nat
  | .node _ _ r _ => r

def PTree.children : PTree → List PTree
  | .node _ _ _ c => c

def insertByTitle (p : PTree) : List PTree → List PTree
  | [] => [p]
  | q :: qs =>
      if p.title ≤ q.title then p :: q :: qs
      else q :: insertByTitle p qs

def sortByTitle : List PTree → List PTree
  | [] => []
  | p :: ps => insertByTitle p (sortByTitle ps)

theorem mem_insertByTitle {q p : PTree} : ∀ {l : List PTree},
    q ∈ insertByTitle p l ↔ q = p ∨ q ∈ l := by
  intro l
  induction l with
  | nil => simp [insertByTitle]
  | cons x xs ih =>
    unfold insertByTitle
    by_cases h : p.title ≤ x.title
    · rw [if_pos h]
      simp
    · rw [if_neg h]
      simp only [List.mem_cons, ih]
      tauto

theorem mem_sortByTitle {q : PTree} : ∀ {l : List PTree},
    q ∈ sortByTitle l ↔ q ∈ l
  | [] => Iff.rfl
  | p :: ps => by
      simp only [sortByTitle, mem_insertByTitle, List.mem_cons,
        mem_sortByTitle (l := ps)]

theorem sizeOf_insertByTitle (p : PTree) : ∀ l : List PTree,
    sizeOf (insertByTitle p l) = 1 + sizeOf p + sizeOf l
  | [] => by simp [insertByTitle]
  | q :: qs => by
      unfold insertByTitle
      by_cases h : p.title ≤ q.title
      · rw [if_pos h]
        simp only [List.cons.sizeOf_spec]
      · rw [if_neg h]
        simp only [List.cons.sizeOf_spec, sizeOf_insertByTitle p qs]
        omega

theorem sizeOf_sortByTitle : ∀ l : List PTree,
    sizeOf (sortByTitle l) = sizeOf l
  | [] => rfl
  | p :: ps => by
      simp only [sortByTitle, sizeOf_insertByTitle, sizeOf_sortByTitle ps,
        List.cons.sizeOf_spec]

mutual

/-- Modelled from the spec: `Project.has_role(user, include_children)` of
models.py (absent from the source tree): whether the user has a role
assignment in the project or, when `include_children` is set, in any
project below it. -/
def PTree.has_role (u : Nat) (include_children : Bool) : PTree → Bool
  | .node _ _ roles children =>
      roles.contains u || (include_children && hasRoleAny u children)

/-- Whether the user has a role in some tree of the list (subtrees
included). -/
def hasRoleAny (u : Nat) : List PTree → Bool
  | [] => false
  | c :: cs => c.has_role u true || hasRoleAny u cs

end

theorem hasRoleAny_of_mem (u : Nat) {c : PTree} : ∀ {l : List PTree},
    c ∈ l → c.has_role u true = true → hasRoleAny u l = true := by
  intro l
  induction l with
  | nil => intro h; cases h
  | cons x xs ih =>
    intro hmem hc
    rcases List.mem_cons.mp hmem with rfl | hmem'
    · simp [hasRoleAny, hc]
    · simp [hasRoleAny, ih hmem' hc]

/-- Modelled from the spec: `Project.get_children()` of models.py (absent
from the source tree): the project's direct children ordered by title;
per the claim, deeper descendants get no submit_status check. -/
def PTree.get_children (p : PTree) : List PTree :=
  sortByTitle p.children

mutual

/-- `append_projects(project)` of get_project_list: the project followed by
the flattened subtrees of those of its children the user may see. -/
def append_projects (u : UserT) : PTree → List PTree
  | .node t s r cs =>
      PTree.node t s r cs :: appendChildren u (sortByTitle cs)
termination_by p => sizeOf p
decreasing_by
  simp only [PTree.node.sizeOf_spec]
  rw [sizeOf_sortByTitle]
  omega

/-- The `for c in project.get_children()` loop of append_projects: each
child passing the superuser-or-role check contributes its own flattening,
in order. -/
def appendChildren (u : UserT) : List PTree → List PTree
  | [] => []
  | c :: cs =>
      (if u.is_superuser || c.has_role u.uid true then append_projects u c
       else []) ++ appendChildren u cs
termination_by l => sizeOf l
decreasing_by
  · simp only [List.cons.sizeOf_spec]
    omega
  · simp only [List.cons.sizeOf_spec]
    omega

end

/-- `get_project_list(user, parent)`: `projects` is the list of direct
children of `parent` in the database; the Project queryset
`filter(parent=parent, submit_status='OK').order_by('title')` becomes a
filter on submit_status followed by the title sort. -/
def get_project_list (u : UserT) (projects : List PTree) : List PTree :=
  let project_list : List PTree :=
    if u.is_superuser then
      sortByTitle (projects.filter fun p =>
        p.submit_status == SUBMIT_STATUS_OK)
    else if !u.is_anonymous then
      (sortByTitle (projects.filter fun p =>
          p.submit_status == SUBMIT_STATUS_OK)).filter
        fun p => p.has_role u.uid true
    else []
  project_list.flatMap (append_projects u)

/-- `d` lies in the subtree rooted at `p` (being `p` itself included). -/
inductive InSubtree : PTree → PTree → Prop where
  | refl (p : PTree) : InSubtree p p
  | child {d c : PTree} {t s : String} {r : List Nat} {cs : List PTree} :
      c ∈ cs → InSubtree c d → InSubtree (PTree.node t s r cs) d

theorem PTree.strongInd {P : PTree → Prop}
    (h : ∀ t s r cs, (∀ c ∈ cs, P c) → P (.node t s r cs)) :
    ∀ p, P p
  | .node t s r cs =>
      h t s r cs fun c hc => PTree.strongInd h c
termination_by p => sizeOf p
decreasing_by
  have := List.sizeOf_lt_of_mem hc
  simp only [PTree.node.sizeOf_spec]
  omega

theorem has_role_of_inSubtree (u : Nat) {c d : PTree}
    (h : InSubtree c d) :
    d.has_role u true = true → c.has_role u true = true := by
  induction h with
  | refl => exact id
  | child hc _ ih =>
    intro hd
    simp only [PTree.has_role]
    rw [hasRoleAny_of_mem u hc (ih hd)]
    simp

theorem mem_appendChildren (u : UserT) (d : PTree) : ∀ l : List PTree,
    (d ∈ appendChildren u l ↔
      ∃ c ∈ l, (u.is_superuser || c.has_role u.uid true) = true ∧
        d ∈ append_projects u c)
  | [] => by simp [appendChildren]
  | c :: cs => by
      rw [appendChildren]
      by_cases h : (u.is_superuser || c.has_role u.uid true) = true
      · rw [if_pos h]
        simp only [List.mem_append, mem_appendChildren u d cs, List.mem_cons]
        constructor
        · rintro (hd | ⟨c', hc', hcond, hd⟩)
          · exact ⟨c, Or.inl rfl, h, hd⟩
          · exact ⟨c', Or.inr hc', hcond, hd⟩
        · rintro ⟨c', rfl | hc', hcond, hd⟩
          · exact Or.inl hd
          · exact Or.inr ⟨c', hc', hcond, hd⟩
      · rw [if_neg h]
        simp only [List.nil_append, mem_appendChildren u d cs, List.mem_cons]
        constructor
        · rintro ⟨c', hc', hcond, hd⟩
          exact ⟨c', Or.inr hc', hcond, hd⟩
        · rintro ⟨c', rfl | hc', hcond, hd⟩
          · exact absurd hcond h
          · exact ⟨c', hc', hcond, hd⟩

theorem mem_append_projects (u : UserT) (d : PTree) : ∀ p : PTree,
    (u.is_superuser || p.has_role u.uid true) = true →
    (d ∈ append_projects u p ↔
      InSubtree p d ∧ (u.is_superuser || d.has_role u.uid true) = true) := by
  intro p
  induction p using PTree.strongInd with
  | _ t s r cs ih =>
    intro hp
    rw [append_projects]
    simp only [List.mem_cons, mem_appendChildren]
    constructor
    · rintro (rfl | ⟨c, hc, hcond, hd⟩)
      · exact ⟨InSubtree.refl _, hp⟩
      · have hc' := mem_sortByTitle.mp hc
        have := (ih c hc' hcond).mp hd
        exact ⟨InSubtree.child hc' this.1, this.2⟩
    · rintro ⟨hsub, hd⟩
      cases hsub with
      | refl => exact Or.inl rfl
      | child hc hsub' =>
        rename_i c
        right
        have hcond : (u.is_superuser || c.has_role u.uid true) = true := by
          by_cases hsup : u.is_superuser = true
          · simp [hsup]
          · simp only [Bool.or_eq_true] at hd ⊢
            rcases hd with hd | hd
            · exact absurd hd hsup
            · exact Or.inr (has_role_of_inSubtree u.uid hsub' hd)
        exact ⟨c, mem_sortByTitle.mpr hc, hcond,
          (ih c hc hcond).mpr ⟨hsub', hd⟩⟩

theorem filter_false_or {α : Type} (f : α → Bool) : ∀ l : List α,
    (l.filter fun c => false || f c) = l.filter f
  | [] => rfl
  | x :: xs => by
      simp only [List.filter_cons, Bool.false_or]

/-- The three branches of get_project_list collapse to one uniform
condition: empty for an anonymous non-superuser, otherwise the
OK-filtered, title-ordered direct children passing the
superuser-or-role check, each followed depth-first by its visible
subtrees. -/
theorem get_project_list_eq (u : UserT) (projects : List PTree) :
    get_project_list u projects =
      if u.is_anonymous && !u.is_superuser then []
      else
        ((sortByTitle (projects.filter fun p =>
            p.submit_status == SUBMIT_STATUS_OK)).filter fun c =>
          u.is_superuser || c.has_role u.uid true).flatMap
          (append_projects u) := by
  by_cases hsup : u.is_superuser = true
  · simp only [get_project_list, hsup, if_true, Bool.not_true, Bool.and_false,
      Bool.false_eq_true, if_false, Bool.true_or, List.filter_true]
  · have hsup' : u.is_superuser = false := by
      rw [← Bool.not_eq_true]
      exact hsup
    by_cases hanon : u.is_anonymous = true
    · simp [get_project_list, hsup', hanon]
    · have hanon' : u.is_anonymous = false := by
        rw [← Bool.not_eq_true]
        exact hanon
      simp only [get_project_list, hsup', Bool.false_eq_true, if_false,
        hanon', Bool.not_false, if_true, Bool.and_true, Bool.false_or,
        filter_false_or]

/-- C1 (amended): get_project_list returns the empty list for an
anonymous non-superuser; otherwise it is the depth-first flattening in
which each listed project is followed immediately by the flattenings of
its included children, a direct child of parent being listed exactly when
its submit_status is OK and the user is a superuser or has a role in it
or below it; a project is in the output exactly when the user is not an
anonymous non-superuser and the project sits in the subtree of a
direct child with submit_status OK and the user is a superuser or has a
role in the project or one of its children. -/
theorem get_project_list_ok (u : UserT) (projects : List PTree) :
    (u.is_anonymous = true → u.is_superuser = false →
      get_project_list u projects = []) ∧
    (get_project_list u projects =
      if u.is_anonymous && !u.is_superuser then []
      else
        ((sortByTitle (projects.filter fun p =>
            p.submit_status == SUBMIT_STATUS_OK)).filter fun c =>
          u.is_superuser || c.has_role u.uid true).flatMap
          (append_projects u)) ∧
    (∀ d, d ∈ get_project_list u projects ↔
      ((u.is_superuser = true ∨ u.is_anonymous = false) ∧
        ∃ c ∈ projects, c.submit_status = SUBMIT_STATUS_OK ∧ InSubtree c d ∧
          (u.is_superuser || d.has_role u.uid true) = true)) := by
  refine ⟨?_, get_project_list_eq u projects, ?_⟩
  · intro hanon hsup
    simp [get_project_list, hanon, hsup]
  · intro d
    rw [get_project_list_eq u projects]
    by_cases hsup : u.is_superuser = true
    · rw [if_neg (by simp [hsup])]
      rw [List.mem_flatMap]
      constructor
      · rintro ⟨c, hc, hd⟩
        have hc0 := (List.mem_filter.mp hc).1
        have hc1 := mem_sortByTitle.mp hc0
        have hc2 := List.mem_filter.mp hc1
        have hmem := (mem_append_projects u d c (by simp [hsup])).mp hd
        exact ⟨Or.inl hsup, c, hc2.1, by simpa using hc2.2, hmem.1, hmem.2⟩
      · rintro ⟨-, c, hc, hok, hsub, hcond⟩
        refine ⟨c, ?_, (mem_append_projects u d c (by simp [hsup])).mpr
          ⟨hsub, hcond⟩⟩
        rw [List.mem_filter]
        exact ⟨mem_sortByTitle.mpr
          (List.mem_filter.mpr ⟨hc, by simp [hok]⟩), by simp [hsup]⟩
    · have hsup' : u.is_superuser = false := by
        rw [← Bool.not_eq_true]
        exact hsup
      by_cases hanon : u.is_anonymous = true
      · rw [if_pos (by simp [hanon, hsup'])]
        simp [hanon, hsup']
      · have hanon' : u.is_anonymous = false := by
          rw [← Bool.not_eq_true]
          exact hanon
        rw [if_neg (by simp [hanon'])]
        rw [List.mem_flatMap]
        constructor
        · rintro ⟨c, hc, hd⟩
          have hc1 := mem_sortByTitle.mp (List.mem_filter.mp hc).1
          have hcond := (List.mem_filter.mp hc).2
          have hc2 := List.mem_filter.mp hc1
          have hmem := (mem_append_projects u d c hcond).mp hd
          exact ⟨Or.inr hanon', c, hc2.1, by simpa using hc2.2, hmem.1,
            hmem.2⟩
        · rintro ⟨-, c, hc, hok, hsub, hcond⟩
          have hcondc : (u.is_superuser || c.has_role u.uid true) = true := by
            rw [hsup', Bool.false_or] at hcond ⊢
            exact has_role_of_inSubtree u.uid hsub hcond
          refine ⟨c, ?_, (mem_append_projects u d c hcondc).mpr
            ⟨hsub, hcond⟩⟩
          rw [List.mem_filter]
          exact ⟨mem_sortByTitle.mpr
            (List.mem_filter.mpr ⟨hc, by simp [hok]⟩), hcondc⟩

/-- Witness for C1 at a concrete input: an anonymous non-superuser gets
the empty list even with a role in an OK project. -/
theorem get_project_list_ok_witness :
    get_project_list ⟨false, true, 7⟩ [PTree.node "a" "OK" [7] []] = [] :=
  (get_project_list_ok ⟨false, true, 7⟩ [PTree.node "a" "OK" [7] []]).1 rfl rfl

/-- Counterexample to C1 as stated: for a superuser, the claim's
descendant clause says every deeper descendant is included (the user is a
superuser), yet the child of a top-level project with submit_status
PENDING is omitted, because its ancestor is removed by the top-level
submit_status filter. -/
theorem get_project_list_counterexample :
    UserT.is_superuser ⟨true, false, 1⟩ = true ∧
    InSubtree (PTree.node "top" "PENDING" [] [PTree.node "kid" "OK" [] []])
      (PTree.node "kid" "OK" [] []) ∧
    PTree.node "kid" "OK" [] [] ∉
      get_project_list ⟨true, false, 1⟩
        [PTree.node "top" "PENDING" [] [PTree.node "kid" "OK" [] []]] := by
  refine ⟨rfl,
    InSubtree.child (List.mem_cons_self _ _) (InSubtree.refl _), ?_⟩
  have h : get_project_list ⟨true, false, 1⟩
      [PTree.node "top" "PENDING" [] [PTree.node "kid" "OK" [] []]] = [] := by
    rw [get_project_list_eq]
    norm_num [List.filter]
  rw [h]
  exact List.not_mem_nil _

end Sodar
